import Mathlib

/-!
Verification development for the ts-routeways runtime core: the codec engine
(src/lib/Codecs.ts) and the route tree resolver (src/lib/Routeways.ts).

The TypeScript runtime is dynamically typed at run time, so values flowing
through codecs are modelled by a universal value type JSValue.  JS numbers are
modelled by the decimal fragment the Number codec exercises (signed decimal
literals and the two infinities); JS Date instances are modelled by their
canonical UTC field tuple, which is the view the Date codec converts to and
from.  String manipulation helpers (split, replaceAll, percent coding, the
WHATWG URL accessors used by the source) are implemented here directly so that
every definition is executable by kernel reduction.
-/

/-! ## Decimal digit machinery (model of JS number-to-string / string-to-number) -/

/-- Most-significant-first decimal digits of a natural number, with explicit
fuel so the recursion is structural.  Called with fuel at least n. -/
def natToDigitsGo : Nat → Nat → List Nat
  | 0, n => [n]
  | fuel + 1, n => if n < 10 then [n] else natToDigitsGo fuel (n / 10) ++ [n % 10]

/-- Decimal digits of n, most significant first.  natToDigits 0 = [0]. -/
def natToDigits (n : Nat) : List Nat := natToDigitsGo n n

/-- The decimal character string of a natural number, as JS String(n) prints
a nonnegative integer. -/
def natToChars (n : Nat) : List Char := (natToDigits n).map Nat.digitChar

/-- Value of a most-significant-first digit list, folded onto an accumulator. -/
def digitsVal (acc : Nat) : List Nat → Nat
  | [] => acc
  | d :: rest => digitsVal (10 * acc + d) rest

/-- The numeric value of a decimal digit character, none for other characters. -/
def decDigit? (c : Char) : Option Nat :=
  if '0' ≤ c ∧ c ≤ '9' then some (c.toNat - '0'.toNat) else none

/-- Is the character a decimal digit. -/
def isDigitCh (c : Char) : Bool := decide ('0' ≤ c ∧ c ≤ '9')

/-- Reads decimal digit characters onto an accumulator; none on a non-digit. -/
def readDigits (acc : Nat) : List Char → Option Nat
  | [] => some acc
  | c :: rest =>
    match decDigit? c with
    | some d => readDigits (10 * acc + d) rest
    | none => none

/-- Parses a nonempty all-digit character list to its value, as the digit
strings accepted inside a JS decimal number literal. -/
def parseNatDigits (s : List Char) : Option Nat :=
  if s.isEmpty then none else readDigits 0 s

/-- Left-pads a character list with zeros up to the given width. -/
def padZeros (l : List Char) (w : Nat) : List Char :=
  List.replicate (w - l.length) '0' ++ l

/-! ### Lemmas about the digit machinery -/

theorem digitsVal_append (l1 l2 : List Nat) (acc : Nat) :
    digitsVal acc (l1 ++ l2) = digitsVal (digitsVal acc l1) l2 := by
  induction l1 generalizing acc with
  | nil => rfl
  | cons d rest ih => simp [digitsVal, ih]

theorem natToDigitsGo_spec (fuel : Nat) : ∀ n acc, n ≤ fuel →
    digitsVal acc (natToDigitsGo fuel n) =
      acc * 10 ^ (natToDigitsGo fuel n).length + n := by
  induction fuel with
  | zero =>
    intro n acc hn
    have hn0 : n = 0 := Nat.le_zero.mp hn
    subst hn0
    simp [natToDigitsGo, digitsVal]
    ring
  | succ fuel ih =>
    intro n acc hn
    by_cases h10 : n < 10
    · simp [natToDigitsGo, h10, digitsVal]
      ring
    · have hdiv : n / 10 ≤ fuel := by omega
      have := ih (n / 10) acc hdiv
      simp only [natToDigitsGo, if_neg h10]
      rw [digitsVal_append, this]
      simp [digitsVal, List.length_append]
      have hmod : 10 * (n / 10) + n % 10 = n := by omega
      ring_nf
      omega

theorem natToDigitsGo_lt_ten (fuel : Nat) : ∀ n, n ≤ fuel →
    ∀ d ∈ natToDigitsGo fuel n, d < 10 := by
  induction fuel with
  | zero =>
    intro n hn d hd
    have hn0 : n = 0 := Nat.le_zero.mp hn
    subst hn0
    simp [natToDigitsGo] at hd
    omega
  | succ fuel ih =>
    intro n hn d hd
    by_cases h10 : n < 10
    · simp [natToDigitsGo, h10] at hd
      omega
    · simp only [natToDigitsGo, if_neg h10, List.mem_append, List.mem_singleton] at hd
      rcases hd with hd | hd
      · exact ih (n / 10) (by omega) d hd
      · subst hd; exact Nat.mod_lt _ (by omega)

theorem natToDigitsGo_ne_nil (fuel n : Nat) : natToDigitsGo fuel n ≠ [] := by
  cases fuel with
  | zero => simp [natToDigitsGo]
  | succ fuel =>
    by_cases h10 : n < 10 <;> simp [natToDigitsGo, h10]

theorem natToDigitsGo_length_le (fuel : Nat) : ∀ n w, n ≤ fuel → n < 10 ^ w → 1 ≤ w →
    (natToDigitsGo fuel n).length ≤ w := by
  induction fuel with
  | zero =>
    intro n w hn _ hw
    have hn0 : n = 0 := Nat.le_zero.mp hn
    subst hn0
    simpa [natToDigitsGo] using hw
  | succ fuel ih =>
    intro n w hn hpow hw
    by_cases h10 : n < 10
    · simpa [natToDigitsGo, h10] using hw
    · obtain ⟨w', rfl⟩ : ∃ w', w = w' + 1 := ⟨w - 1, by omega⟩
      have hw' : 1 ≤ w' := by
        by_contra hcon
        have : w' = 0 := by omega
        subst this
        simp [pow_succ] at hpow
        omega
      have hdivpow : n / 10 < 10 ^ w' := by
        rw [Nat.div_lt_iff_lt_mul (by norm_num)]
        calc n < 10 ^ (w' + 1) := hpow
        _ = 10 ^ w' * 10 := by rw [pow_succ]
      have := ih (n / 10) w' (by omega) hdivpow hw'
      simp only [natToDigitsGo, if_neg h10, List.length_append, List.length_singleton]
      omega

theorem decDigit?_digitChar (d : Nat) (hd : d < 10) :
    decDigit? (Nat.digitChar d) = some d := by
  interval_cases d <;> rfl

theorem decDigit?_digitChar_mod (x : Nat) :
    decDigit? (Nat.digitChar (x % 10)) = some (x % 10) :=
  decDigit?_digitChar _ (Nat.mod_lt _ (by norm_num))

theorem isDigitCh_digitChar (d : Nat) (hd : d < 10) :
    isDigitCh (Nat.digitChar d) = true := by
  interval_cases d <;> rfl

theorem readDigits_append (l1 l2 : List Char) (acc : Nat) :
    readDigits acc (l1 ++ l2) =
      (readDigits acc l1).bind (fun a => readDigits a l2) := by
  induction l1 generalizing acc with
  | nil => rfl
  | cons c rest ih =>
    simp only [List.cons_append, readDigits]
    cases decDigit? c with
    | none => rfl
    | some d => exact ih _

theorem readDigits_map_digitChar (l : List Nat) (acc : Nat)
    (h : ∀ d ∈ l, d < 10) :
    readDigits acc (l.map Nat.digitChar) = some (digitsVal acc l) := by
  induction l generalizing acc with
  | nil => rfl
  | cons d rest ih =>
    have hd : d < 10 := h d (List.mem_cons_self _ _)
    simp only [List.map_cons, readDigits, decDigit?_digitChar d hd, digitsVal]
    exact ih _ (fun x hx => h x (List.mem_cons_of_mem _ hx))

theorem readDigits_zeros (k : Nat) (rest : List Char) :
    readDigits 0 (List.replicate k '0' ++ rest) = readDigits 0 rest := by
  induction k with
  | zero => rfl
  | succ k ih =>
    have h0 : decDigit? '0' = some 0 := rfl
    simpa [List.replicate_succ, readDigits, h0] using ih

theorem parseNatDigits_natToChars (n : Nat) :
    parseNatDigits (natToChars n) = some n := by
  unfold parseNatDigits natToChars natToDigits
  have hne : (natToDigitsGo n n).map Nat.digitChar ≠ [] := by
    simpa using natToDigitsGo_ne_nil n n
  rw [if_neg (by simpa [List.isEmpty_iff] using hne)]
  rw [readDigits_map_digitChar _ _ (natToDigitsGo_lt_ten n n le_rfl)]
  rw [natToDigitsGo_spec n n 0 le_rfl]
  simp

theorem natToChars_ne_nil (n : Nat) : natToChars n ≠ [] := by
  simpa [natToChars, natToDigits] using natToDigitsGo_ne_nil n n

theorem natToChars_all_digit (n : Nat) : ∀ c ∈ natToChars n, isDigitCh c = true := by
  intro c hc
  simp only [natToChars, natToDigits, List.mem_map] at hc
  obtain ⟨d, hd, rfl⟩ := hc
  exact isDigitCh_digitChar d (natToDigitsGo_lt_ten n n le_rfl d hd)

theorem natToChars_head (n : Nat) :
    ∃ c t, natToChars n = c :: t ∧ isDigitCh c = true := by
  cases hcase : natToChars n with
  | nil => exact absurd hcase (natToChars_ne_nil n)
  | cons c t =>
    refine ⟨c, t, rfl, ?_⟩
    have := natToChars_all_digit n c
    rw [hcase] at this
    exact this (List.mem_cons_self _ _)

/-! ## JS numbers

The Number codec in the source delegates to the JS builtins String(n) and
Number(text).  JSNum models the decimal fragment of JS numbers these builtins
exchange: the two infinities and finite values written as optional-sign
decimal literals.  A finite value n / 10 ^ e is canonical when it carries no
trailing fractional zeros, mirroring the unique shortest representation
String(n) prints for a JS number. -/

inductive JSNum where
  | posInf
  | negInf
  | dec (n : Int) (e : Nat)
deriving DecidableEq, Repr

/-- Canonical finite representations: the fractional exponent is zero or the
mantissa has no trailing zero digit. -/
def JSNum.canonicalB : JSNum → Bool
  | .posInf => true
  | .negInf => true
  | .dec n e => e == 0 || n % 10 != 0

def infChars : List Char := ['I', 'n', 'f', 'i', 'n', 'i', 't', 'y']

def intSignChars (n : Int) : List Char := if n < 0 then ['-'] else []

/-- Model of the JS String(n) builtin on the decimal fragment. -/
def numToChars : JSNum → List Char
  | .posInf => infChars
  | .negInf => '-' :: infChars
  | .dec n 0 => intSignChars n ++ natToChars n.natAbs
  | .dec n (e + 1) =>
    intSignChars n ++ natToChars (n.natAbs / 10 ^ (e + 1)) ++
      '.' :: padZeros (natToChars (n.natAbs % 10 ^ (e + 1))) (e + 1)

def numToString (v : JSNum) : String := String.mk (numToChars v)

/-- Strips a leading JS sign character, returning the sign factor. -/
def stripSign : List Char → Int × List Char
  | [] => (1, [])
  | c :: rest => if c = '-' then (-1, rest) else if c = '+' then (1, rest) else (1, c :: rest)

/-- Splits a character list on a separator character (every occurrence). -/
def splitOnChar (sep : Char) : List Char → List (List Char)
  | [] => [[]]
  | c :: rest =>
    if c = sep then [] :: splitOnChar sep rest
    else
      match splitOnChar sep rest with
      | [] => [[c]]
      | h :: t => (c :: h) :: t

/-- Drops trailing fractional zeros, as parsing a decimal literal to a JS
number forgets them. -/
def normNum (n : Int) : Nat → JSNum
  | 0 => .dec n 0
  | e + 1 => if n % 10 = 0 then normNum (n / 10) e else .dec n (e + 1)

/-- Parses the part of a JS decimal literal after the optional sign. -/
def parseDecBody (sgn : Int) (rest : List Char) : Option JSNum :=
  match splitOnChar '.' rest with
  | [ip] =>
    match parseNatDigits ip with
    | some v => some (.dec (sgn * v) 0)
    | none => none
  | [ip, fp] =>
    if ip.isEmpty && fp.isEmpty then none
    else
      match (if ip.isEmpty then some 0 else parseNatDigits ip),
            (if fp.isEmpty then some 0 else parseNatDigits fp) with
      | some iv, some fv => some (normNum (sgn * (iv * 10 ^ fp.length + fv)) fp.length)
      | _, _ => none
  | _ => none

/-- Model of the JS Number(text) builtin restricted to the fragment the codec
exercises: the empty string (which JS maps to zero), the infinities, and
optional-sign decimal literals.  none models NaN. -/
def jsNumberOfChars (s : List Char) : Option JSNum :=
  if s.isEmpty then some (.dec 0 0)
  else if s = infChars ∨ s = '+' :: infChars then some .posInf
  else if s = '-' :: infChars then some .negInf
  else
    let sr := stripSign s
    parseDecBody sr.1 sr.2

def jsNumberOfString (s : String) : Option JSNum := jsNumberOfChars s.data

/-! ### The number print/parse round trip -/

theorem splitOnChar_not_mem (sep : Char) (l : List Char) (h : sep ∉ l) :
    splitOnChar sep l = [l] := by
  induction l with
  | nil => rfl
  | cons c rest ih =>
    have hc : c ≠ sep := fun hc => h (hc ▸ List.mem_cons_self _ _)
    have hrest : sep ∉ rest := fun hr => h (List.mem_cons_of_mem _ hr)
    simp [splitOnChar, hc, ih hrest]

theorem splitOnChar_pair (sep : Char) (l1 l2 : List Char)
    (h1 : sep ∉ l1) (h2 : sep ∉ l2) :
    splitOnChar sep (l1 ++ sep :: l2) = [l1, l2] := by
  induction l1 with
  | nil => simp [splitOnChar, splitOnChar_not_mem sep l2 h2]
  | cons c rest ih =>
    have hc : c ≠ sep := fun hc => h1 (hc ▸ List.mem_cons_self _ _)
    have hrest : sep ∉ rest := fun hr => h1 (List.mem_cons_of_mem _ hr)
    simp [splitOnChar, hc, ih hrest]

theorem isDigitCh_ne (c d : Char) (hc : isDigitCh c = true) (hd : isDigitCh d = false) :
    c ≠ d := by
  intro h
  rw [h, hd] at hc
  exact Bool.false_ne_true hc

theorem dot_not_mem_natToChars (n : Nat) : '.' ∉ natToChars n := by
  intro h
  have := natToChars_all_digit n '.' h
  simp [isDigitCh] at this

theorem dot_not_mem_padZeros (n w : Nat) : '.' ∉ padZeros (natToChars n) w := by
  intro h
  rcases List.mem_append.mp h with h | h
  · have := List.eq_of_mem_replicate h
    simp at this
  · exact dot_not_mem_natToChars n h

theorem padZeros_readDigits (n w : Nat) :
    readDigits 0 (padZeros (natToChars n) w) = some n := by
  unfold padZeros
  rw [readDigits_zeros]
  have := parseNatDigits_natToChars n
  unfold parseNatDigits at this
  rwa [if_neg (by simpa [List.isEmpty_iff] using natToChars_ne_nil n)] at this

theorem padZeros_length (n w : Nat) (h : n < 10 ^ w) (hw : 1 ≤ w) :
    (padZeros (natToChars n) w).length = w := by
  have hlen : (natToChars n).length ≤ w := by
    simpa [natToChars, natToDigits] using
      natToDigitsGo_length_le n n w le_rfl h hw
  simp [padZeros, List.length_replicate]
  omega

theorem padZeros_ne_nil (n w : Nat) : padZeros (natToChars n) w ≠ [] := by
  unfold padZeros
  intro h
  exact natToChars_ne_nil n (List.append_eq_nil.mp h).2

theorem parseNatDigits_padZeros (n w : Nat) :
    parseNatDigits (padZeros (natToChars n) w) = some n := by
  unfold parseNatDigits
  rw [if_neg (by simpa [List.isEmpty_iff] using padZeros_ne_nil n w)]
  exact padZeros_readDigits n w

theorem head_ne_list (c : Char) (t : List Char) (d : Char) (t2 : List Char)
    (h : c ≠ d) : c :: t ≠ d :: t2 := by
  simp [h]

theorem ne_of_mem_not_mem {α : Type} {a : α} {l1 l2 : List α}
    (h1 : a ∈ l1) (h2 : a ∉ l2) : l1 ≠ l2 :=
  fun he => h2 (he ▸ h1)
theorem parseDecBody_natToChars (sgn : Int) (a : Nat) :
    parseDecBody sgn (natToChars a) = some (.dec (sgn * (a : Int)) 0) := by
  unfold parseDecBody
  rw [splitOnChar_not_mem '.' _ (dot_not_mem_natToChars a)]
  show (match parseNatDigits (natToChars a) with
        | some v => some (JSNum.dec (sgn * v) 0)
        | none => none) = some (.dec (sgn * (a : Int)) 0)
  rw [parseNatDigits_natToChars]

theorem parseDecBody_frac (sgn : Int) (a e : Nat) :
    parseDecBody sgn
      (natToChars (a / 10 ^ (e + 1)) ++
        '.' :: padZeros (natToChars (a % 10 ^ (e + 1))) (e + 1)) =
      some (normNum (sgn * (a : Int)) (e + 1)) := by
  unfold parseDecBody
  rw [splitOnChar_pair '.' _ _ (dot_not_mem_natToChars _) (dot_not_mem_padZeros _ _)]
  have hip : (natToChars (a / 10 ^ (e + 1))).isEmpty = false := by
    simpa [List.isEmpty_iff] using natToChars_ne_nil (a / 10 ^ (e + 1))
  have hfp : (padZeros (natToChars (a % 10 ^ (e + 1))) (e + 1)).isEmpty = false := by
    simpa [List.isEmpty_iff] using padZeros_ne_nil (a % 10 ^ (e + 1)) (e + 1)
  have hlen : (padZeros (natToChars (a % 10 ^ (e + 1))) (e + 1)).length = e + 1 :=
    padZeros_length _ _ (Nat.mod_lt _ (Nat.pos_pow_of_pos _ (by norm_num))) (by omega)
  show (if _ && _ then none else _) = _
  rw [hip, hfp]
  show (match (if false = true then some 0 else parseNatDigits (natToChars (a / 10 ^ (e + 1)))),
             (if false = true then some 0 else
               parseNatDigits (padZeros (natToChars (a % 10 ^ (e + 1))) (e + 1))) with
       | some iv, some fv =>
         some (normNum (sgn * (iv * 10 ^ (padZeros (natToChars (a % 10 ^ (e + 1))) (e + 1)).length + fv))
           (padZeros (natToChars (a % 10 ^ (e + 1))) (e + 1)).length)
       | _, _ => none) = _
  rw [if_neg (by simp), if_neg (by simp), parseNatDigits_natToChars, parseNatDigits_padZeros, hlen]
  have hval : ((a / 10 ^ (e + 1) : Nat) : Int) * 10 ^ (e + 1) + ((a % 10 ^ (e + 1) : Nat) : Int)
      = (a : Int) := by
    exact_mod_cast Nat.div_add_mod' a (10 ^ (e + 1))
  show some (normNum (sgn * _) (e + 1)) = _
  rw [show (((a / 10 ^ (e + 1) : Nat) : Int) * (10 : Int) ^ (e + 1) +
      ((a % 10 ^ (e + 1) : Nat) : Int)) = (a : Int) by push_cast at hval ⊢; omega]

theorem jsNumber_roundTrip (v : JSNum) (h : v.canonicalB = true) :
    jsNumberOfChars (numToChars v) = some v := by
  cases v with
  | posInf => rfl
  | negInf => rfl
  | dec n e =>
    cases e with
    | zero =>
      by_cases hneg : n < 0
      · -- negative integer: printed as a minus sign followed by digits
        have hsign : intSignChars n = ['-'] := by simp [intSignChars, hneg]
        obtain ⟨c, t, hct, hdig⟩ := natToChars_head n.natAbs
        have hchars : numToChars (.dec n 0) = '-' :: natToChars n.natAbs := by
          simp [numToChars, hsign]
        rw [hchars]
        have hne1 : ('-' :: natToChars n.natAbs) ≠ infChars :=
          head_ne_list '-' _ 'I' _ (by decide)
        have hne2 : ('-' :: natToChars n.natAbs) ≠ '+' :: infChars :=
          head_ne_list '-' _ '+' _ (by decide)
        have hne3 : ('-' :: natToChars n.natAbs) ≠ '-' :: infChars := by
          have hx : natToChars n.natAbs ≠ infChars := by
            rw [hct]
            exact head_ne_list c t 'I' _ (isDigitCh_ne c 'I' hdig (by decide))
          simp [hx]
        unfold jsNumberOfChars
        rw [if_neg (by simp)]
        rw [if_neg (not_or.mpr ⟨hne1, hne2⟩)]
        rw [if_neg hne3]
        have hs1 : (stripSign ('-' :: natToChars n.natAbs)).1 = -1 := by simp [stripSign]
        have hs2 : (stripSign ('-' :: natToChars n.natAbs)).2 = natToChars n.natAbs := by
          simp [stripSign]
        show parseDecBody (stripSign _).1 (stripSign _).2 = _
        rw [hs1, hs2, parseDecBody_natToChars]
        have hval : (-1 : Int) * (n.natAbs : Int) = n := by omega
        rw [hval]
      · -- nonnegative integer: printed as bare digits
        have hsign : intSignChars n = [] := by simp [intSignChars, hneg]
        obtain ⟨c, t, hct, hdig⟩ := natToChars_head n.natAbs
        have hchars : numToChars (.dec n 0) = natToChars n.natAbs := by
          simp [numToChars, hsign]
        rw [hchars, hct]
        have hI : c ≠ 'I' := isDigitCh_ne c 'I' hdig (by decide)
        have hplus : c ≠ '+' := isDigitCh_ne c '+' hdig (by decide)
        have hminus : c ≠ '-' := isDigitCh_ne c '-' hdig (by decide)
        have hne1 : (c :: t) ≠ infChars := head_ne_list c t 'I' _ hI
        have hne2 : (c :: t) ≠ '+' :: infChars := head_ne_list c t '+' _ hplus
        have hne3 : (c :: t) ≠ '-' :: infChars := head_ne_list c t '-' _ hminus
        unfold jsNumberOfChars
        rw [if_neg (by simp)]
        rw [if_neg (not_or.mpr ⟨hne1, hne2⟩)]
        rw [if_neg hne3]
        have hs1 : (stripSign (c :: t)).1 = 1 := by simp [stripSign, hminus, hplus]
        have hs2 : (stripSign (c :: t)).2 = c :: t := by simp [stripSign, hminus, hplus]
        show parseDecBody (stripSign _).1 (stripSign _).2 = _
        rw [hs1, hs2, ← hct, parseDecBody_natToChars]
        have hval : (1 : Int) * (n.natAbs : Int) = n := by omega
        rw [hval]
    | succ e =>
      have hmod : n % 10 ≠ 0 := by
        simp [JSNum.canonicalB] at h
        omega
      have hnorm : normNum n (e + 1) = .dec n (e + 1) := by
        simp [normNum, hmod]
      by_cases hneg : n < 0
      · have hsign : intSignChars n = ['-'] := by simp [intSignChars, hneg]
        have hchars : numToChars (.dec n (e + 1)) =
            '-' :: (natToChars (n.natAbs / 10 ^ (e + 1)) ++
              '.' :: padZeros (natToChars (n.natAbs % 10 ^ (e + 1))) (e + 1)) := by
          simp [numToChars, hsign]
        rw [hchars]
        have hdotmem : '.' ∈ ('-' :: (natToChars (n.natAbs / 10 ^ (e + 1)) ++
            '.' :: padZeros (natToChars (n.natAbs % 10 ^ (e + 1))) (e + 1))) := by
          simp
        have hne1 : ('-' :: (natToChars (n.natAbs / 10 ^ (e + 1)) ++
            '.' :: padZeros (natToChars (n.natAbs % 10 ^ (e + 1))) (e + 1))) ≠ infChars :=
          ne_of_mem_not_mem hdotmem (by decide)
        have hne2 : ('-' :: (natToChars (n.natAbs / 10 ^ (e + 1)) ++
            '.' :: padZeros (natToChars (n.natAbs % 10 ^ (e + 1))) (e + 1))) ≠ '+' :: infChars :=
          ne_of_mem_not_mem hdotmem (by decide)
        have hne3 : ('-' :: (natToChars (n.natAbs / 10 ^ (e + 1)) ++
            '.' :: padZeros (natToChars (n.natAbs % 10 ^ (e + 1))) (e + 1))) ≠ '-' :: infChars :=
          ne_of_mem_not_mem hdotmem (by decide)
        unfold jsNumberOfChars
        rw [if_neg (by simp)]
        rw [if_neg (not_or.mpr ⟨hne1, hne2⟩)]
        rw [if_neg hne3]
        have hs1 : (stripSign ('-' :: (natToChars (n.natAbs / 10 ^ (e + 1)) ++
            '.' :: padZeros (natToChars (n.natAbs % 10 ^ (e + 1))) (e + 1)))).1 = -1 := by
          simp [stripSign]
        have hs2 : (stripSign ('-' :: (natToChars (n.natAbs / 10 ^ (e + 1)) ++
            '.' :: padZeros (natToChars (n.natAbs % 10 ^ (e + 1))) (e + 1)))).2 =
            natToChars (n.natAbs / 10 ^ (e + 1)) ++
              '.' :: padZeros (natToChars (n.natAbs % 10 ^ (e + 1))) (e + 1) := by
          simp [stripSign]
        show parseDecBody (stripSign _).1 (stripSign _).2 = _
        rw [hs1, hs2, parseDecBody_frac]
        have hval : (-1 : Int) * (n.natAbs : Int) = n := by omega
        rw [hval, hnorm]
      · have hsign : intSignChars n = [] := by simp [intSignChars, hneg]
        have hchars : numToChars (.dec n (e + 1)) =
            natToChars (n.natAbs / 10 ^ (e + 1)) ++
              '.' :: padZeros (natToChars (n.natAbs % 10 ^ (e + 1))) (e + 1) := by
          simp [numToChars, hsign]
        rw [hchars]
        obtain ⟨c, t, hct, hdig⟩ := natToChars_head (n.natAbs / 10 ^ (e + 1))
        have hI : c ≠ 'I' := isDigitCh_ne c 'I' hdig (by decide)
        have hplus : c ≠ '+' := isDigitCh_ne c '+' hdig (by decide)
        have hminus : c ≠ '-' := isDigitCh_ne c '-' hdig (by decide)
        have hshape : natToChars (n.natAbs / 10 ^ (e + 1)) ++
            '.' :: padZeros (natToChars (n.natAbs % 10 ^ (e + 1))) (e + 1) =
            c :: (t ++ '.' :: padZeros (natToChars (n.natAbs % 10 ^ (e + 1))) (e + 1)) := by
          rw [hct]
          rfl
        rw [hshape]
        have hne1 : (c :: (t ++ '.' :: padZeros (natToChars (n.natAbs % 10 ^ (e + 1))) (e + 1)))
            ≠ infChars := head_ne_list c _ 'I' _ hI
        have hne2 : (c :: (t ++ '.' :: padZeros (natToChars (n.natAbs % 10 ^ (e + 1))) (e + 1)))
            ≠ '+' :: infChars := head_ne_list c _ '+' _ hplus
        have hne3 : (c :: (t ++ '.' :: padZeros (natToChars (n.natAbs % 10 ^ (e + 1))) (e + 1)))
            ≠ '-' :: infChars := head_ne_list c _ '-' _ hminus
        unfold jsNumberOfChars
        rw [if_neg (by simp)]
        rw [if_neg (not_or.mpr ⟨hne1, hne2⟩)]
        rw [if_neg hne3]
        have hs1 : (stripSign (c :: (t ++ '.' :: padZeros (natToChars (n.natAbs % 10 ^ (e + 1)))
            (e + 1)))).1 = 1 := by simp [stripSign, hminus, hplus]
        have hs2 : (stripSign (c :: (t ++ '.' :: padZeros (natToChars (n.natAbs % 10 ^ (e + 1)))
            (e + 1)))).2 = c :: (t ++ '.' :: padZeros (natToChars (n.natAbs % 10 ^ (e + 1)))
            (e + 1)) := by simp [stripSign, hminus, hplus]
        show parseDecBody (stripSign _).1 (stripSign _).2 = _
        rw [hs1, hs2, ← hshape, parseDecBody_frac]
        have hval : (1 : Int) * (n.natAbs : Int) = n := by omega
        rw [hval, hnorm]

/-! ## JS dates

A JS Date instance holding a valid timestamp is modelled by its canonical UTC
field tuple, the view the Date codec converts through: toISOString prints the
fields and parsing an ISO string recomputes the timestamp from them.  The model
covers the four-digit-year ISO fragment the codec round trip exercises. -/

structure JSDate where
  year : Nat
  month : Nat
  day : Nat
  hour : Nat
  minute : Nat
  second : Nat
  ms : Nat
deriving DecidableEq, Repr

def isLeapYear (y : Nat) : Bool := y % 4 == 0 && (y % 100 != 0 || y % 400 == 0)

def daysInMonth (y m : Nat) : Nat :=
  if m = 2 then (if isLeapYear y then 29 else 28)
  else if m = 4 ∨ m = 6 ∨ m = 9 ∨ m = 11 then 30
  else 31

/-- The field tuples reachable from a valid JS Date timestamp within the
four-digit-year ISO range. -/
def JSDate.validB (d : JSDate) : Bool :=
  d.year ≤ 9999 && 1 ≤ d.month && d.month ≤ 12 && 1 ≤ d.day &&
    d.day ≤ daysInMonth d.year d.month && d.hour ≤ 23 && d.minute ≤ 59 &&
    d.second ≤ 59 && d.ms ≤ 999

/-- Model of Date.prototype.toISOString restricted to four-digit years: each
field is printed fixed width, zero padded. -/
def toISOChars (d : JSDate) : List Char :=
  [Nat.digitChar (d.year / 1000 % 10), Nat.digitChar (d.year / 100 % 10),
   Nat.digitChar (d.year / 10 % 10), Nat.digitChar (d.year % 10), '-',
   Nat.digitChar (d.month / 10 % 10), Nat.digitChar (d.month % 10), '-',
   Nat.digitChar (d.day / 10 % 10), Nat.digitChar (d.day % 10), 'T',
   Nat.digitChar (d.hour / 10 % 10), Nat.digitChar (d.hour % 10), ':',
   Nat.digitChar (d.minute / 10 % 10), Nat.digitChar (d.minute % 10), ':',
   Nat.digitChar (d.second / 10 % 10), Nat.digitChar (d.second % 10), '.',
   Nat.digitChar (d.ms / 100 % 10), Nat.digitChar (d.ms / 10 % 10),
   Nat.digitChar (d.ms % 10), 'Z']

def read2 (a b : Char) : Option Nat :=
  match decDigit? a, decDigit? b with
  | some x, some y => some (10 * x + y)
  | _, _ => none

def read3 (a b c : Char) : Option Nat :=
  match decDigit? a, decDigit? b, decDigit? c with
  | some x, some y, some z => some (100 * x + 10 * y + z)
  | _, _, _ => none

def read4 (a b c d : Char) : Option Nat :=
  match decDigit? a, decDigit? b, decDigit? c, decDigit? d with
  | some x, some y, some z, some w => some (1000 * x + 100 * y + 10 * z + w)
  | _, _, _, _ => none

/-- Model of the date parsing done by new Date(text), restricted to the full
ISO UTC form the codec round trip exercises; out-of-range field combinations
give an invalid date, modelled as none. -/
def parseISOChars (s : List Char) : Option JSDate :=
  match s with
  | [y1, y2, y3, y4, '-', m1, m2, '-', d1, d2, 'T',
     h1, h2, ':', mi1, mi2, ':', s1, s2, '.', ms1, ms2, ms3, 'Z'] =>
    match read4 y1 y2 y3 y4, read2 m1 m2, read2 d1 d2, read2 h1 h2,
          read2 mi1 mi2, read2 s1 s2, read3 ms1 ms2 ms3 with
    | some y, some mo, some da, some hh, some mi, some ss, some msv =>
      let d : JSDate := ⟨y, mo, da, hh, mi, ss, msv⟩
      if d.validB then some d else none
    | _, _, _, _, _, _, _ => none
  | _ => none

theorem read2_digits (x : Nat) (hx : x ≤ 99) :
    read2 (Nat.digitChar (x / 10 % 10)) (Nat.digitChar (x % 10)) = some x := by
  simp only [read2, decDigit?_digitChar_mod]
  congr 1
  omega

theorem read3_digits (x : Nat) (hx : x ≤ 999) :
    read3 (Nat.digitChar (x / 100 % 10)) (Nat.digitChar (x / 10 % 10))
      (Nat.digitChar (x % 10)) = some x := by
  simp only [read3, decDigit?_digitChar_mod]
  congr 1
  omega

theorem read4_digits (x : Nat) (hx : x ≤ 9999) :
    read4 (Nat.digitChar (x / 1000 % 10)) (Nat.digitChar (x / 100 % 10))
      (Nat.digitChar (x / 10 % 10)) (Nat.digitChar (x % 10)) = some x := by
  simp only [read4, decDigit?_digitChar_mod]
  congr 1
  omega

theorem parseISO_toISO (d : JSDate) (h : d.validB = true) :
    parseISOChars (toISOChars d) = some d := by
  obtain ⟨y, mo, da, hh, mi, ss, msv⟩ := d
  have hb : y ≤ 9999 ∧ mo ≤ 99 ∧ da ≤ 99 ∧ hh ≤ 99 ∧ mi ≤ 99 ∧ ss ≤ 99 ∧ msv ≤ 999 := by
    simp [JSDate.validB, daysInMonth] at h
    split at h <;> split at h <;> omega
  unfold toISOChars parseISOChars
  simp only
  rw [read4_digits y hb.1, read2_digits mo hb.2.1, read2_digits da hb.2.2.1,
    read2_digits hh hb.2.2.2.1, read2_digits mi hb.2.2.2.2.1,
    read2_digits ss hb.2.2.2.2.2.1, read3_digits msv hb.2.2.2.2.2.2]
  simp only [h, if_true]

/-! ## JS values, codec interface, errors -/

/-- Universal runtime value type: the codecs of the source are dynamically
typed at run time and check value shapes with typeof / instanceof. -/
inductive JSValue where
  | bool (b : Bool)
  | num (n : JSNum)
  | str (s : String)
  | date (d : JSDate)
  | arr (xs : List JSValue)
  | null
  | undef

/-- The two codec error classes CodecDecodeError and CodecEncodeError, carrying
their message. -/
inductive CodecError where
  | decodeErr (msg : String)
  | encodeErr (msg : String)
deriving DecidableEq, Repr

/-- The query context handed to decode when decoding query parameters. -/
structure DecodeQuery where
  key : String
  search : String
deriving DecidableEq, Repr

/-- The Codec interface: decode takes the text and an optional query context,
encode takes the value and an optional query key. -/
structure Codec where
  decode : String → Option DecodeQuery → Except CodecError JSValue
  encode : JSValue → Option String → Except CodecError String

/-- Joins strings with a separator, as Array.prototype.join. -/
def jsJoin (sep : String) : List String → String
  | [] => ""
  | h :: t => t.foldl (fun acc s => acc ++ sep ++ s) h

mutual
/-- Model of the JS ToString coercion used when interpolating a value into a
template literal, on the shapes the codecs interpolate.  A Date is modelled by
its ISO string (JS prints a locale form, which no claim observes). -/
def jsToString : JSValue → String
  | .bool b => if b then "true" else "false"
  | .num n => numToString n
  | .str s => s
  | .date d => String.mk (toISOChars d)
  | .arr xs => jsJoin "," (jsToStringList xs)
  | .null => "null"
  | .undef => "undefined"
def jsToStringList : List JSValue → List String
  | [] => []
  | v :: rest => jsToString v :: jsToStringList rest
end

namespace Codecs

/-- The Boolean entry of the Codecs object. -/
def Boolean : Codec where
  decode := fun text _ =>
    if text = "true" then .ok (.bool true)
    else if text = "false" then .ok (.bool false)
    else .error (.decodeErr
      ("Boolean values must be \"true\" or \"false\". Got \"" ++ text ++ "\" instead"))
  encode := fun value _ =>
    match value with
    | .bool b => .ok (if b then "true" else "false")
    | v => .error (.encodeErr
      ("Unable to encode \"" ++ jsToString v ++ "\". A boolean value was expected"))

/-- The Number entry of the Codecs object: decode applies Number(text) and
rejects the empty string and NaN, encode applies String(value). -/
def Number : Codec where
  decode := fun text _ =>
    match jsNumberOfString text with
    | some v =>
      if text = "" then .error (.decodeErr
        ("Number values must be numeric only. Got \"" ++ text ++ "\" instead"))
      else .ok (.num v)
    | none => .error (.decodeErr
      ("Number values must be numeric only. Got \"" ++ text ++ "\" instead"))
  encode := fun value _ =>
    match value with
    | .num n => .ok (numToString n)
    | v => .error (.encodeErr
      ("Unable to encode \"" ++ jsToString v ++ "\". A number value was expected"))

/-- The String entry of the Codecs object: decode is the identity. -/
def String : Codec where
  decode := fun text _ => .ok (.str text)
  encode := fun value _ =>
    match value with
    | .str s => .ok s
    | v => .error (.encodeErr
      ("Unable to encode \"" ++ jsToString v ++ "\". A string value was expected"))

/-- The Date entry of the Codecs object: decode builds a Date from the text
and rejects invalid dates, encode requires a valid Date and prints its ISO
string. -/
def Date : Codec where
  decode := fun text _ =>
    match parseISOChars text.data with
    | some d => .ok (.date d)
    | none => .error (.decodeErr
      ("Date values must have a ISO or RFC2822 format. Got \"" ++ text ++ "\" instead"))
  encode := fun value _ =>
    match value with
    | .date d =>
      if d.validB then .ok (String.mk (toISOChars d))
      else .error (.encodeErr
        ("Unable to encode \"" ++ jsToString (.date d) ++ "\". A Date instance was expected"))
    | v => .error (.encodeErr
      ("Unable to encode \"" ++ jsToString v ++ "\". A Date instance was expected"))

end Codecs
theorem numToString_ne_empty (v : JSNum) : numToString v ≠ "" := by
  unfold numToString
  intro hcon
  have hnil : numToChars v = [] := congrArg String.data hcon
  cases v with
  | posInf => simp [numToChars, infChars] at hnil
  | negInf => simp [numToChars, infChars] at hnil
  | dec n e =>
    cases e with
    | zero =>
      simp only [numToChars] at hnil
      exact natToChars_ne_nil n.natAbs (List.append_eq_nil.mp hnil).2
    | succ e =>
      simp only [numToChars, List.append_assoc] at hnil
      have := (List.append_eq_nil.mp hnil).2
      simp at this

theorem jsNumberOfString_numToString (v : JSNum) (h : v.canonicalB = true) :
    jsNumberOfString (numToString v) = some v :=
  jsNumber_roundTrip v h

theorem number_decode_numToString (v : JSNum) (hv : v.canonicalB = true) :
    Codecs.Number.decode (numToString v) none = .ok (.num v) := by
  simp [Codecs.Number, jsNumberOfString_numToString v hv, numToString_ne_empty v]

theorem parseISO_mk_data (d : JSDate) (h : d.validB = true) :
    parseISOChars (String.mk (toISOChars d)).data = some d :=
  parseISO_toISO d h

/-- decode composed after encode, both called without query context. -/
def roundTrips (c : Codec) (v : JSValue) : Prop :=
  (c.encode v none).bind (fun t => c.decode t none) = .ok v

/-- Claim C1: for every primitive codec (Boolean, Number, String, Date) and
every valid value in its domain, decoding the encoding gives the value back;
for Number this covers the infinities, fractional values such as 0.5 and -0.1,
integers and negatives (the canonical finite representations are exactly the
values String(n) can print). -/
theorem c1_primitive_roundTrip :
    (∀ b, roundTrips Codecs.Boolean (.bool b)) ∧
    (∀ v : JSNum, v.canonicalB = true → roundTrips Codecs.Number (.num v)) ∧
    (∀ s, roundTrips Codecs.String (.str s)) ∧
    (∀ d : JSDate, d.validB = true → roundTrips Codecs.Date (.date d)) := by
  refine ⟨?_, ?_, ?_, ?_⟩
  · intro b
    cases b <;> rfl
  · intro v hv
    show Codecs.Number.decode (numToString v) none = .ok (.num v)
    exact number_decode_numToString v hv
  · intro s
    rfl
  · intro d hd
    unfold roundTrips
    have henc : Codecs.Date.encode (.date d) none = .ok (String.mk (toISOChars d)) := by
      simp [Codecs.Date, hd]
    rw [henc]
    show Codecs.Date.decode (String.mk (toISOChars d)) none = .ok (.date d)
    simp [Codecs.Date, parseISO_mk_data d hd]

/-- Witness for C1: the round trip evaluated at the particular values the claim
names, plus a concrete date. -/
theorem c1_witness :
    roundTrips Codecs.Number (.num .posInf) ∧
    roundTrips Codecs.Number (.num .negInf) ∧
    roundTrips Codecs.Number (.num (.dec 5 1)) ∧
    roundTrips Codecs.Number (.num (.dec (-1) 1)) ∧
    roundTrips Codecs.Number (.num (.dec 42 0)) ∧
    roundTrips Codecs.Number (.num (.dec (-7) 0)) ∧
    roundTrips Codecs.Boolean (.bool true) ∧
    roundTrips Codecs.String (.str "foo") ∧
    roundTrips Codecs.Date (.date ⟨2021, 5, 3, 10, 20, 30, 123⟩) :=
  ⟨c1_primitive_roundTrip.2.1 .posInf (by decide),
   c1_primitive_roundTrip.2.1 .negInf (by decide),
   c1_primitive_roundTrip.2.1 (.dec 5 1) (by decide),
   c1_primitive_roundTrip.2.1 (.dec (-1) 1) (by decide),
   c1_primitive_roundTrip.2.1 (.dec 42 0) (by decide),
   c1_primitive_roundTrip.2.1 (.dec (-7) 0) (by decide),
   c1_primitive_roundTrip.1 true,
   c1_primitive_roundTrip.2.2.1 "foo",
   c1_primitive_roundTrip.2.2.2 ⟨2021, 5, 3, 10, 20, 30, 123⟩ (by decide)⟩

/-- Alias for the string type, usable where the Codecs namespace shadows the
plain name with the String codec. -/
abbrev JSString := String

/-! ## String and URL helpers used by the source

Models of the JS string builtins (split, startsWith, endsWith, includes,
replaceAll, slice), the percent coding functions, and the WHATWG URL
accessors (pathname, search, searchParams) on the fragment the source
exercises: single byte escapes, no dot-segment or host normalization. -/

def jsStartsWithChars (s pat : List Char) : Bool := pat.isPrefixOf s

def jsStartsWith (s pat : String) : Bool := jsStartsWithChars s.data pat.data

def jsEndsWith (s pat : String) : Bool := pat.data.isSuffixOf s.data

/-- Substring containment, as String.prototype.includes. -/
def containsSubChars (s pat : List Char) : Bool :=
  match s with
  | [] => pat.isEmpty
  | _ :: rest => pat.isPrefixOf s || containsSubChars rest pat

def containsSub (s pat : String) : Bool := containsSubChars s.data pat.data

/-- Splitting on a nonempty separator, with fuel for structural recursion. -/
def jsSplitGo (sep : List Char) : Nat → List Char → List Char → List (List Char)
  | 0, cur, rest => [cur.reverse ++ rest]
  | fuel + 1, cur, rest =>
    match rest with
    | [] => [cur.reverse]
    | c :: rs =>
      if sep.isPrefixOf (c :: rs) then
        cur.reverse :: jsSplitGo sep fuel [] (List.drop sep.length (c :: rs))
      else jsSplitGo sep fuel (c :: cur) rs

/-- Model of String.prototype.split with a string separator. -/
def jsSplitChars (sep s : List Char) : List (List Char) :=
  if sep.isEmpty then s.map (fun c => [c]) else jsSplitGo sep s.length [] s

def jsSplit (s sep : String) : List String :=
  (jsSplitChars sep.data s.data).map String.mk

/-- Model of String.prototype.replaceAll with a nonempty plain pattern. -/
def jsReplaceAllGo (pat rep : List Char) : Nat → List Char → List Char
  | 0, s => s
  | fuel + 1, s =>
    match s with
    | [] => []
    | c :: rs =>
      if pat.isPrefixOf (c :: rs) then
        rep ++ jsReplaceAllGo pat rep fuel (List.drop pat.length (c :: rs))
      else c :: jsReplaceAllGo pat rep fuel rs

def jsReplaceAll (s pat rep : String) : String :=
  if pat.data.isEmpty then s
  else String.mk (jsReplaceAllGo pat.data rep.data s.data.length s.data)

/-- slice(1, length - 1): drops the first and last characters. -/
def jsSliceInner (s : String) : String := String.mk (s.data.drop 1).dropLast

def isAsciiAlphaNum (c : Char) : Bool :=
  ('A' ≤ c && c ≤ 'Z') || ('a' ≤ c && c ≤ 'z') || ('0' ≤ c && c ≤ '9')

def hexUpper (n : Nat) : Char :=
  if n < 10 then Nat.digitChar n else Char.ofNat (55 + n)

/-- Percent-encodes one character (single byte model, ASCII fragment). -/
def pctEnc (c : Char) : List Char :=
  ['%', hexUpper (c.toNat / 16 % 16), hexUpper (c.toNat % 16)]

/-- The characters encodeURIComponent leaves unescaped besides alphanumerics. -/
def uriMarks : List Char := ['-', '_', '.', '!', '~', '*', Char.ofNat 39, '(', ')']

/-- The extra characters encodeURI leaves unescaped. -/
def uriReserved : List Char := [';', '/', '?', ':', '@', '&', '=', '+', '$', ',', '#']

def concatMap {α β : Type} (f : α → List β) : List α → List β
  | [] => []
  | a :: rest => f a ++ concatMap f rest

/-- Model of encodeURIComponent on the single byte fragment. -/
def encodeURIComponent (s : String) : String :=
  String.mk (concatMap
    (fun c => if isAsciiAlphaNum c || uriMarks.contains c then [c] else pctEnc c)
    s.data)

/-- Model of encodeURI on the single byte fragment. -/
def encodeURI (s : String) : String :=
  String.mk (concatMap
    (fun c =>
      if isAsciiAlphaNum c || uriMarks.contains c || uriReserved.contains c then [c]
      else pctEnc c)
    s.data)

/-- The value of one hexadecimal digit character, in either case. -/
def hexVal? (c : Char) : Option Nat :=
  let n := c.toNat
  if 48 ≤ n ∧ n ≤ 57 then some (n - 48)
  else if 65 ≤ n ∧ n ≤ 70 then some (n - 55)
  else if 97 ≤ n ∧ n ≤ 102 then some (n - 87)
  else none

/-- Percent-decoding with plus-as-space, as URLSearchParams applies to keys
and values (single byte model; malformed escapes are kept verbatim). -/
def formDecode : List Char → List Char
  | [] => []
  | '%' :: h1 :: h2 :: rest =>
    match hexVal? h1, hexVal? h2 with
    | some a, some b => Char.ofNat (16 * a + b) :: formDecode rest
    | _, _ => '%' :: formDecode (h1 :: h2 :: rest)
  | '+' :: rest => ' ' :: formDecode rest
  | c :: rest => c :: formDecode rest

/-- Splits one query pair at the first equals sign. -/
def splitKV (pair : List Char) : List Char × List Char :=
  (pair.takeWhile (fun c => c ≠ '='), (pair.dropWhile (fun c => c ≠ '=')).drop 1)

/-- Model of the URLSearchParams view of a search string: strip one leading
question mark, split on ampersands, drop empty segments, split each pair at
the first equals sign and percent-decode both sides. -/
def searchPairs (search : String) : List (String × String) :=
  let q := match search.data with
    | '?' :: rest => rest
    | l => l
  ((jsSplitChars ['&'] q).filter (fun p => ¬ p.isEmpty)).map
    (fun p => (String.mk (formDecode (splitKV p).1), String.mk (formDecode (splitKV p).2)))

/-- URLSearchParams.get: the first value for the key, if any. -/
def searchParamsGet (search key : String) : Option String :=
  ((searchPairs search).find? (fun kv => kv.1 == key)).map (fun kv => kv.2)

/-- URLSearchParams.getAll: every value for the key, in order. -/
def searchParamsGetAll (search key : String) : List String :=
  ((searchPairs search).filter (fun kv => kv.1 == key)).map (fun kv => kv.2)

/-- The pathname and search components of a parsed URL. -/
structure JSURL where
  pathname : String
  search : String
deriving DecidableEq, Repr

/-- Skips the scheme separator of an absolute URL. -/
def afterScheme : List Char → List Char
  | [] => []
  | ':' :: '/' :: '/' :: r => r
  | _ :: r => afterScheme r

/-- Skips the host: everything up to the first slash, question mark or hash. -/
def skipHost : List Char → List Char
  | [] => []
  | c :: r => if c = '/' ∨ c = '?' ∨ c = '#' then c :: r else skipHost r

/-- Model of the new URL constructor on the canonical absolute URLs the source
builds: extracts pathname (defaulting to a single slash) and search, dropping
any fragment; a lone question mark yields an empty search. -/
def jsNewURL (full : String) : JSURL :=
  let tail := (skipHost (afterScheme full.data)).takeWhile (fun c => c ≠ '#')
  let path := tail.takeWhile (fun c => c ≠ '?')
  let query := tail.dropWhile (fun c => c ≠ '?')
  { pathname := String.mk (if path.isEmpty then ['/'] else path)
    search := if query = ['?'] then "" else String.mk query }

/-! ## The array codec and the wrapper codecs -/

inductive ArrayFormat where
  | json
  | delimited
  | repeatKey
  | keySquareBrackets
deriving DecidableEq, Repr

/-- The format string as written in the source options object. -/
def ArrayFormat.fmtName : ArrayFormat → String
  | .json => "json"
  | .delimited => "delimited"
  | .repeatKey => "repeat-key"
  | .keySquareBrackets => "key-square-brackets"

/-- getAll against the URL built from the query search string, as the array
codec constructs new URL with a localhost base before reading searchParams. -/
def queryGetAll (search key : String) : List String :=
  searchParamsGetAll (jsNewURL ("http://localhost" ++ search)).search key

/-- The array codec constructor Codecs.array: options carry the delimiter
(defaulting to a comma in the source) and the format (defaulting to json). -/
def Codecs.array (codec : Codec) (delimiter : JSString) (format : ArrayFormat) : Codec where
  decode := fun text query =>
    if text = "" ∧ query = none then .ok (.arr [])
    else
      match format with
      | .delimited =>
        ((jsSplit text delimiter).mapM (fun value => codec.decode value none)).map .arr
      | .json =>
        if jsStartsWith text "[" ∧ jsEndsWith text "]" then
          ((jsSplit (jsSliceInner text) ",").mapM
            (fun value => codec.decode value none)).map .arr
        else .error (.decodeErr "Invalid array format! Expected values to be on square brackets")
      | .keySquareBrackets =>
        match query with
        | some q =>
          ((queryGetAll q.search (q.key ++ "[]")).mapM
            (fun value => codec.decode value none)).map .arr
        | none => .error (.decodeErr
          ("The \"" ++ ArrayFormat.fmtName .keySquareBrackets ++
            "\" format is only supported on query paramaters"))
      | .repeatKey =>
        match query with
        | some q =>
          ((queryGetAll q.search q.key).mapM
            (fun value => codec.decode value none)).map .arr
        | none => .error (.decodeErr
          ("The \"" ++ ArrayFormat.fmtName .repeatKey ++
            "\" format is only supported on query paramaters"))
  encode := fun value key =>
    match value with
    | .arr xs =>
      if xs.length = 0 then .ok ""
      else
        (xs.mapM (fun val => codec.encode val none)).map (fun array =>
          match format with
          | .delimited => jsJoin delimiter array
          | .json => "[" ++ jsJoin "," array ++ "]"
          | .keySquareBrackets =>
            jsJoin "&" (array.map (fun val => key.getD "undefined" ++ "[]=" ++ val))
          | .repeatKey =>
            jsJoin "&" (array.map (fun val => key.getD "undefined" ++ "=" ++ val)))
    | v => .error (.encodeErr
      ("Unable to encode \"" ++ jsToString v ++ "\". An array value was expected"))

/-- Codecs.null: wraps a codec so the literal text null and the null value take
precedence; everything else delegates to the inner codec (which, as in the
source, receives no query context and no key). -/
def Codecs.null (codec : Codec) : Codec where
  decode := fun text _ => if text = "null" then .ok .null else codec.decode text none
  encode := fun value _ =>
    match value with
    | .null => .ok "null"
    | v => codec.encode v none

/-- Codecs.undefined: the symmetric wrapper for the literal text undefined. -/
def Codecs.undefined (codec : Codec) : Codec where
  decode := fun text _ => if text = "undefined" then .ok .undef else codec.decode text none
  encode := fun value _ =>
    match value with
    | .undef => .ok "undefined"
    | v => codec.encode v none

/-- Codecs.nullish is literally the composition of the two wrappers. -/
def Codecs.nullish (codec : Codec) : Codec := Codecs.null (Codecs.undefined codec)

/-- Codecs.numberLiteral: decode parses through the Number codec first and then
checks membership in the literal set; encode checks membership first and then
delegates to the Number codec. -/
def Codecs.numberLiteral (literals : List JSNum) : Codec where
  decode := fun text _ =>
    match Codecs.Number.decode text none with
    | .ok (.num decoded) =>
      if literals.contains decoded then .ok (.num decoded)
      else .error (.decodeErr
        ("Literal value must be one of \"[" ++ jsJoin ", " (literals.map numToString) ++
          "]\". Got \"" ++ text ++ "\" instead"))
    | .ok _ => .error (.decodeErr
        ("Literal value must be one of \"[" ++ jsJoin ", " (literals.map numToString) ++
          "]\". Got \"" ++ text ++ "\" instead"))
    | .error e => .error e
  encode := fun value _ =>
    if (match value with | .num d => literals.contains d | _ => false) then
      Codecs.Number.encode value none
    else .error (.encodeErr
      ("Unable to encode \"" ++ jsToString value ++ "\". A literal value of \"[" ++
        jsJoin ", " (literals.map numToString) ++ "]\" was expected"))


/-! ## Claims about the array and wrapper codecs -/

/-- Counterexample for C4: in the json format, decoding the empty string WITH
a query context supplied does not give the empty sequence; the empty-string
rule of the source fires only when the query argument is undefined, so the
json bracket check rejects the empty text. -/
theorem c4_counterexample :
    (Codecs.array Codecs.String "," .json).decode "" (some ⟨"x", "?x="⟩) =
      .error (.decodeErr "Invalid array format! Expected values to be on square brackets") ∧
    (Codecs.array Codecs.String "," .json).decode "" (some ⟨"x", "?x="⟩) ≠ .ok (.arr []) :=
  ⟨rfl, fun h => Except.noConfusion h⟩

/-- Claim C4 (amended): for array(String) in the json format, decoding the
empty string with NO query context yields the empty sequence (with a query
context it fails with the bracket decode error); encoding the empty sequence
yields the empty string; decoding a bracket pair yields one empty string;
decode after encode is the identity on two empty strings; and any nonempty
text not wrapped in square brackets fails with the bracket decode error. -/
theorem c4_array_json :
    (∀ q, (Codecs.array Codecs.String "," .json).decode "" (some q) =
      .error (.decodeErr "Invalid array format! Expected values to be on square brackets")) ∧
    (Codecs.array Codecs.String "," .json).decode "" none = .ok (.arr []) ∧
    (∀ k, (Codecs.array Codecs.String "," .json).encode (.arr []) k = .ok "") ∧
    (Codecs.array Codecs.String "," .json).decode "[]" none = .ok (.arr [.str ""]) ∧
    ((Codecs.array Codecs.String "," .json).encode (.arr [.str "", .str ""]) none).bind
      (fun t => (Codecs.array Codecs.String "," .json).decode t none) =
      .ok (.arr [.str "", .str ""]) ∧
    (∀ text q, text ≠ "" → ¬(jsStartsWith text "[" ∧ jsEndsWith text "]") →
      (Codecs.array Codecs.String "," .json).decode text q =
        .error (.decodeErr "Invalid array format! Expected values to be on square brackets")) := by
  refine ⟨?_, rfl, ?_, rfl, rfl, ?_⟩
  · intro q
    rfl
  · intro k
    rfl
  · intro text q hne hbr
    simp only [Codecs.array]
    rw [if_neg (fun hc => hne hc.1)]
    rw [if_neg hbr]

/-- Witness for C4: the nonempty unwrapped case evaluated at a concrete text. -/
theorem c4_witness :
    (Codecs.array Codecs.String "," .json).decode "x" none =
      .error (.decodeErr "Invalid array format! Expected values to be on square brackets") :=
  c4_array_json.2.2.2.2.2 "x" none (by decide) (by decide)

/-- Claim C6: for array(String) in the delimited format, encoding the
one-element sequence holding one empty string produces the same output as
encoding the empty sequence (the empty string), so decoding the encoding of
that one-element sequence yields the empty sequence instead: the delimited
format cannot represent it. -/
theorem c6_delimited_ambiguity :
    (Codecs.array Codecs.String "," .delimited).encode (.arr [.str ""]) none = .ok "" ∧
    (Codecs.array Codecs.String "," .delimited).encode (.arr []) none = .ok "" ∧
    ((Codecs.array Codecs.String "," .delimited).encode (.arr [.str ""]) none).bind
      (fun t => (Codecs.array Codecs.String "," .delimited).decode t none) = .ok (.arr []) ∧
    ((Codecs.array Codecs.String "," .delimited).encode (.arr [.str ""]) none).bind
      (fun t => (Codecs.array Codecs.String "," .delimited).decode t none) ≠
      .ok (.arr [.str ""]) := by
  refine ⟨rfl, rfl, rfl, ?_⟩
  intro h
  injection h with h1
  injection h1 with h2
  exact List.noConfusion h2

/-- Claim C7: nullish is the composition null after undefined; the literal
texts null and undefined take precedence on both directions, the Boolean text
still decodes, and for every other text and value the wrappers delegate to the
inner codec (passing, as the source does, no query context and no key). -/
theorem c7_nullish :
    (∀ c, Codecs.nullish c = Codecs.null (Codecs.undefined c)) ∧
    (∀ q, (Codecs.nullish Codecs.Boolean).decode "null" q = .ok .null) ∧
    (∀ q, (Codecs.nullish Codecs.Boolean).decode "undefined" q = .ok .undef) ∧
    (∀ q, (Codecs.nullish Codecs.Boolean).decode "true" q = .ok (.bool true)) ∧
    (∀ c k, (Codecs.nullish c).encode .null k = .ok "null") ∧
    (∀ c k, (Codecs.nullish c).encode .undef k = .ok "undefined") ∧
    (∀ c text q, text ≠ "null" → text ≠ "undefined" →
      (Codecs.nullish c).decode text q = c.decode text none) ∧
    (∀ c v k, v ≠ .null → v ≠ .undef →
      (Codecs.nullish c).encode v k = c.encode v none) := by
  refine ⟨fun c => rfl, fun q => rfl, fun q => rfl, fun q => rfl,
    fun c k => rfl, fun c k => rfl, ?_, ?_⟩
  · intro c text q h1 h2
    simp only [Codecs.nullish, Codecs.null, Codecs.undefined]
    rw [if_neg h1, if_neg h2]
  · intro c v k h1 h2
    cases v with
    | null => exact absurd rfl h1
    | undef => exact absurd rfl h2
    | bool b => rfl
    | num n => rfl
    | str s => rfl
    | date d => rfl
    | arr xs => rfl

/-- Witness for C7: the delegation cases evaluated at the Boolean codec. -/
theorem c7_witness :
    (Codecs.nullish Codecs.Boolean).decode "false" none =
      Codecs.Boolean.decode "false" none ∧
    (Codecs.nullish Codecs.Boolean).encode (.bool false) none =
      Codecs.Boolean.encode (.bool false) none :=
  ⟨c7_nullish.2.2.2.2.2.2.1 Codecs.Boolean "false" none (by decide) (by decide),
   c7_nullish.2.2.2.2.2.2.2 Codecs.Boolean (.bool false) none
     (fun h => JSValue.noConfusion h) (fun h => JSValue.noConfusion h)⟩

/-- Counterexample for C8: decoding the empty string without a query context
does not raise a decode error in the repeat-key format; the empty-string rule
of the source fires first and yields the empty sequence. -/
theorem c8_counterexample :
    (Codecs.array Codecs.String "," .repeatKey).decode "" none = .ok (.arr []) ∧
    (Codecs.array Codecs.String "," .repeatKey).decode "" none ≠
      .error (.decodeErr "The \"repeat-key\" format is only supported on query paramaters") :=
  ⟨rfl, fun h => Except.noConfusion h⟩

/-- Claim C8 (amended): for every inner codec, an array codec in the
repeat-key or key-square-brackets format raises a decode error on every
NONEMPTY text when no query context is supplied, while decoding the empty
string without a query context yields the empty sequence; when a query context
is supplied it reads all values for the repeated key (key, respectively
key with appended square brackets) from the raw query string, decoding each
with the inner codec. -/
theorem c8_key_formats (c : Codec) (delim : JSString) (format : ArrayFormat)
    (hfmt : format = .repeatKey ∨ format = .keySquareBrackets) :
    (∀ text, text ≠ "" → (Codecs.array c delim format).decode text none =
      .error (.decodeErr ("The \"" ++ format.fmtName ++
        "\" format is only supported on query paramaters"))) ∧
    (Codecs.array c delim format).decode "" none = .ok (.arr []) ∧
    (∀ text q, (Codecs.array c delim format).decode text (some q) =
      ((queryGetAll q.search
          (if format = .repeatKey then q.key else q.key ++ "[]")).mapM
        (fun v => c.decode v none)).map .arr) := by
  rcases hfmt with rfl | rfl
  · refine ⟨?_, rfl, ?_⟩
    · intro text hne
      simp only [Codecs.array]
      rw [if_neg (fun hc => hne hc.1)]
    · intro text q
      simp only [Codecs.array]
      rw [if_neg (fun hc => Option.noConfusion hc.2)]
      simp
  · refine ⟨?_, rfl, ?_⟩
    · intro text hne
      simp only [Codecs.array]
      rw [if_neg (fun hc => hne hc.1)]
    · intro text q
      simp only [Codecs.array]
      rw [if_neg (fun hc => Option.noConfusion hc.2)]
      simp

/-- Witness for C8: the no-context error and the with-context read evaluated
at concrete inputs. -/
theorem c8_witness :
    (Codecs.array Codecs.String "," .repeatKey).decode "abc" none =
      .error (.decodeErr "The \"repeat-key\" format is only supported on query paramaters") ∧
    (Codecs.array Codecs.String "," .repeatKey).decode "w" (some ⟨"k", "?k=a&k=b"⟩) =
      ((queryGetAll "?k=a&k=b" "k").mapM
        (fun v => Codecs.String.decode v none)).map .arr :=
  ⟨(c8_key_formats Codecs.String "," .repeatKey (Or.inl rfl)).1 "abc" (by decide),
   (c8_key_formats Codecs.String "," .repeatKey (Or.inl rfl)).2.2 "w" ⟨"k", "?k=a&k=b"⟩⟩

/-- Claim C9: numberLiteral(1,2,3) decodes the text 2 to 2; decoding 5 fails
with a decode error listing the allowed set; decoding an unparsable text fails
first with the Number codec error, before any membership check; and encoding 5
fails with an encode error listing the allowed set, since encode checks
membership before delegating to the Number codec. -/
theorem c9_numberLiteral :
    (Codecs.numberLiteral [.dec 1 0, .dec 2 0, .dec 3 0]).decode "2" none =
      .ok (.num (.dec 2 0)) ∧
    (Codecs.numberLiteral [.dec 1 0, .dec 2 0, .dec 3 0]).decode "5" none =
      .error (.decodeErr "Literal value must be one of \"[1, 2, 3]\". Got \"5\" instead") ∧
    (Codecs.numberLiteral [.dec 1 0, .dec 2 0, .dec 3 0]).decode "foo" none =
      .error (.decodeErr "Number values must be numeric only. Got \"foo\" instead") ∧
    (Codecs.numberLiteral [.dec 1 0, .dec 2 0, .dec 3 0]).encode (.num (.dec 5 0)) none =
      .error (.encodeErr "Unable to encode \"5\". A literal value of \"[1, 2, 3]\" was expected") :=
  ⟨rfl, rfl, rfl, rfl⟩

/-! ## The codec registry and addCodec (C5)

addCodec in the source is Object.defineProperty(Codecs, name, { value: codec }).
The registry is modelled as an association list of property entries carrying
the writable and configurable attributes; defineProperty with a bare value
descriptor follows the ECMAScript validate-and-apply rules for data
properties.  Entries are parametric in the stored value type (JS compares
stored objects by reference, modelled by decidable equality). -/

structure RegEntry (α : Type) where
  value : α
  writable : Bool
  configurable : Bool
deriving DecidableEq, Repr

abbrev Registry (α : Type) : Type := List (String × RegEntry α)

/-- Association list lookup with string keys, as property lookup. -/
def alookup {α : Type} (k : String) : List (String × α) → Option α
  | [] => none
  | (k0, v) :: rest => if k0 = k then some v else alookup k rest

def regUpdate {α : Type} (name : String) (v : α) : Registry α → Registry α
  | [] => []
  | (k, e) :: rest =>
    if k = name then (k, { e with value := v }) :: rest
    else (k, e) :: regUpdate name v rest

/-- Object.defineProperty with a descriptor carrying only a value: a missing
property is created non-writable and non-configurable; a configurable or
writable data property gets the new value with its attributes unchanged; a
non-configurable non-writable property accepts only the identical value and
otherwise raises a TypeError. -/
def defineValueProperty {α : Type} [DecidableEq α] (reg : Registry α)
    (name : String) (v : α) : Except String (Registry α) :=
  match alookup name reg with
  | none => .ok (reg ++ [(name, ⟨v, false, false⟩)])
  | some e =>
    if e.configurable ∨ e.writable then .ok (regUpdate name v reg)
    else if e.value = v then .ok reg
    else .error ("TypeError: Cannot redefine property: " ++ name)

/-- The addCodec export: defineProperty on the Codecs object. -/
def addCodec {α : Type} [DecidableEq α] (name : String) (codec : α)
    (reg : Registry α) : Except String (Registry α) :=
  defineValueProperty reg name codec

theorem alookup_append_right {α : Type} (k : String) (l1 l2 : List (String × α))
    (h : alookup k l1 = none) : alookup k (l1 ++ l2) = alookup k l2 := by
  induction l1 with
  | nil => rfl
  | cons kv rest ih =>
    obtain ⟨k0, v⟩ := kv
    by_cases hk : k0 = k
    · simp [alookup, hk] at h
    · simp only [alookup, if_neg hk] at h
      simpa [alookup, hk] using ih h

theorem alookup_append_left {α : Type} (k : String) (l1 l2 : List (String × α))
    (h : (alookup k l1).isSome) : alookup k (l1 ++ l2) = alookup k l1 := by
  induction l1 with
  | nil => simp [alookup] at h
  | cons kv rest ih =>
    obtain ⟨k0, v⟩ := kv
    by_cases hk : k0 = k
    · simp [alookup, hk]
    · simp only [alookup, if_neg hk] at h ⊢
      exact ih h

theorem alookup_regUpdate_self {α : Type} (name : String) (v : α) (reg : Registry α) :
    alookup name (regUpdate name v reg) =
      (alookup name reg).map (fun e => { e with value := v }) := by
  induction reg with
  | nil => rfl
  | cons kv rest ih =>
    obtain ⟨k0, e⟩ := kv
    by_cases hk : k0 = name
    · simp [regUpdate, alookup, hk]
    · simp [regUpdate, alookup, hk, ih]

theorem alookup_regUpdate_isSome {α : Type} (name k : String) (v : α) (reg : Registry α) :
    (alookup k (regUpdate name v reg)).isSome = (alookup k reg).isSome := by
  induction reg with
  | nil => rfl
  | cons kv rest ih =>
    obtain ⟨k0, e⟩ := kv
    simp only [regUpdate]
    by_cases hn : k0 = name
    · rw [if_pos hn]
      simp only [alookup]
      by_cases hk : k0 = k
      · rw [if_pos hk, if_pos hk]
        rfl
      · rw [if_neg hk, if_neg hk]
    · rw [if_neg hn]
      simp only [alookup]
      by_cases hk : k0 = k
      · rw [if_pos hk, if_pos hk]
      · rw [if_neg hk, if_neg hk]
        exact ih

/-- Counterexample for C5: with a name not yet present, the first addCodec
creates a non-writable non-configurable entry, so the second addCodec with a
different codec raises a TypeError instead of overwriting; the later write
does not win. -/
theorem c5_counterexample :
    ((addCodec "myCodec" (1 : Nat) ([] : Registry Nat)).bind
      (addCodec "myCodec" 2)) =
      .error "TypeError: Cannot redefine property: myCodec" ∧
    (addCodec "myCodec" (1 : Nat) ([] : Registry Nat)).map (alookup "myCodec") =
      .ok (some ⟨1, false, false⟩) := by
  exact ⟨rfl, rfl⟩

/-- Claim C5 (amended): when the name is not yet present, addCodec(name, c1)
defines the entry c1 non-writable and non-configurable, so a subsequent
addCodec(name, c2) with a different codec raises a TypeError and the entry
remains c1 (it only succeeds again with the identical codec).  When the name
is already an ordinary configurable or writable property (as the built-in
codecs are), the later write wins.  The registry offers no removal operation:
addCodec never removes an existing name. -/
theorem c5_addCodec (α : Type) [DecidableEq α] (reg : Registry α)
    (name : String) (c1 c2 : α) (hfresh : alookup name reg = none) (hne : c1 ≠ c2) :
    (∃ reg1, addCodec name c1 reg = .ok reg1 ∧
      alookup name reg1 = some ⟨c1, false, false⟩ ∧
      addCodec name c2 reg1 = .error ("TypeError: Cannot redefine property: " ++ name) ∧
      addCodec name c1 reg1 = .ok reg1) ∧
    (∀ (reg0 : Registry α) (e : RegEntry α), alookup name reg0 = some e →
      (e.configurable = true ∨ e.writable = true) →
      ∃ reg2, addCodec name c2 reg0 = .ok reg2 ∧
        (alookup name reg2).map RegEntry.value = some c2) ∧
    (∀ (reg0 reg3 : Registry α) (nm : String) (v : α) (k : String),
      addCodec nm v reg0 = .ok reg3 →
      (alookup k reg0).isSome → (alookup k reg3).isSome) := by
  refine ⟨?_, ?_, ?_⟩
  · refine ⟨reg ++ [(name, ⟨c1, false, false⟩)], ?_, ?_, ?_, ?_⟩
    · simp [addCodec, defineValueProperty, hfresh]
    · rw [alookup_append_right name _ _ hfresh]
      simp [alookup]
    · have hl : alookup name (reg ++ [(name, ⟨c1, false, false⟩)]) =
          some ⟨c1, false, false⟩ := by
        rw [alookup_append_right name _ _ hfresh]
        simp [alookup]
      simp [addCodec, defineValueProperty, hl, hne]
    · have hl : alookup name (reg ++ [(name, ⟨c1, false, false⟩)]) =
          some ⟨c1, false, false⟩ := by
        rw [alookup_append_right name _ _ hfresh]
        simp [alookup]
      simp [addCodec, defineValueProperty, hl]
  · intro reg0 e hlook hattr
    refine ⟨regUpdate name c2 reg0, ?_, ?_⟩
    · simp [addCodec, defineValueProperty, hlook, hattr]
    · rw [alookup_regUpdate_self, hlook]
      rfl
  · intro reg0 reg3 nm v k hadd hk
    simp only [addCodec, defineValueProperty] at hadd
    cases hcase : alookup nm reg0 with
    | none =>
      rw [hcase] at hadd
      simp only [] at hadd
      injection hadd with hadd
      subst hadd
      rw [alookup_append_left k _ _ hk]
      exact hk
    | some e =>
      rw [hcase] at hadd
      simp only [] at hadd
      by_cases hcw : e.configurable = true ∨ e.writable = true
      · rw [if_pos hcw] at hadd
        injection hadd with hadd
        subst hadd
        rw [alookup_regUpdate_isSome]
        exact hk
      · rw [if_neg hcw] at hadd
        by_cases hv : e.value = v
        · rw [if_pos hv] at hadd
          injection hadd with hadd
          subst hadd
          exact hk
        · rw [if_neg hv] at hadd
          exact absurd hadd (fun h => Except.noConfusion h)

/-- Witness for C5: the amended behavior evaluated on a concrete registry. -/
theorem c5_witness :
    (∃ reg1, addCodec "Foo" (1 : Nat) ([] : Registry Nat) = .ok reg1 ∧
      alookup "Foo" reg1 = some ⟨1, false, false⟩ ∧
      addCodec "Foo" 2 reg1 = .error ("TypeError: Cannot redefine property: " ++ "Foo") ∧
      addCodec "Foo" 1 reg1 = .ok reg1) ∧
    (∀ (reg0 : Registry Nat) (e : RegEntry Nat), alookup "Foo" reg0 = some e →
      (e.configurable = true ∨ e.writable = true) →
      ∃ reg2, addCodec "Foo" 2 reg0 = .ok reg2 ∧
        (alookup "Foo" reg2).map RegEntry.value = some 2) ∧
    (∀ (reg0 reg3 : Registry Nat) (nm : String) (v : Nat) (k : String),
      addCodec nm v reg0 = .ok reg3 →
      (alookup k reg0).isSome → (alookup k reg3).isSome) :=
  c5_addCodec Nat [] "Foo" 1 2 (by decide) (by decide)

/-! ## The route tree and its resolution (Routeways.ts)

A route node carries its local path segment, its own path variable codecs, its
own query parameter codecs and its named children; build resolves every node
by injectParentData, which concatenates the ancestor template and spreads the
ancestor path variables under the own ones.  Mutual inductives keep all
recursion structural. -/

mutual
inductive RouteNode where
  | mk (segment : String) (pathVars : List (String × Codec))
       (queryParams : List (String × Codec)) (subRoutes : RouteList)
inductive RouteList where
  | nil
  | cons (name : String) (node : RouteNode) (rest : RouteList)
end

def RouteNode.segment : RouteNode → String
  | .mk s _ _ _ => s

def RouteNode.pathVars : RouteNode → List (String × Codec)
  | .mk _ p _ _ => p

def RouteNode.queryParams : RouteNode → List (String × Codec)
  | .mk _ _ q _ => q

def RouteNode.subRoutes : RouteNode → RouteList
  | .mk _ _ _ s => s

def RouteList.lookup (n : String) : RouteList → Option RouteNode
  | .nil => none
  | .cons name node rest => if name = n then some node else RouteList.lookup n rest

/-- Models the object spread of two codec records, { ...a, ...b }: the keys of
a keep their position with values overridden by b on collision, and the new
keys of b follow in order. -/
def spreadMerge (a b : List (String × Codec)) : List (String × Codec) :=
  a.map (fun kv => (kv.1, (alookup kv.1 b).getD kv.2)) ++
    b.filter (fun kv => (alookup kv.1 a).isNone)

mutual
inductive Resolved where
  | mk (fullPath segment : String) (pathVars queryParams : List (String × Codec))
       (subsCfg : RouteList) (children : ResolvedList)
inductive ResolvedList where
  | nil
  | cons (name : String) (node : Resolved) (rest : ResolvedList)
end

def Resolved.fullPath : Resolved → String
  | .mk f _ _ _ _ _ => f

def Resolved.segment : Resolved → String
  | .mk _ s _ _ _ _ => s

/-- The pathVars the resolved node exposes through its config: the
accumulated ones. -/
def Resolved.pathVars : Resolved → List (String × Codec)
  | .mk _ _ p _ _ _ => p

/-- The queryParams the resolved node exposes through its config. -/
def Resolved.queryParams : Resolved → List (String × Codec)
  | .mk _ _ _ q _ _ => q

def Resolved.children : Resolved → ResolvedList
  | .mk _ _ _ _ _ c => c

def ResolvedList.lookup (n : String) : ResolvedList → Option Resolved
  | .nil => none
  | .cons name node rest => if name = n then some node else ResolvedList.lookup n rest

mutual
/-- Model of injectParentData: the resolved node closes over the concatenated
full template and the spread of the ancestor path variables under its own,
keeps its own query params, and resolves every child against the new full
template and accumulated path variables. -/
def injectParentData (route : RouteNode) (path : String)
    (pathVars : List (String × Codec)) : Resolved :=
  match route with
  | .mk seg pv qp subs =>
    Resolved.mk (path ++ seg) seg (spreadMerge pathVars pv) qp subs
      (injectChildren subs (path ++ seg) (spreadMerge pathVars pv))
def injectChildren (subs : RouteList) (fullPath : String)
    (allPathVars : List (String × Codec)) : ResolvedList :=
  match subs with
  | .nil => .nil
  | .cons n child rest =>
    .cons n (injectParentData child fullPath allPathVars)
      (injectChildren rest fullPath allPathVars)
end

/-- The build method: resolves every top level route with an empty starting
path and no inherited path variables. -/
def Routeways.build (routes : RouteList) : ResolvedList :=
  injectChildren routes "" []

/-- The result shape of parseUrl. -/
structure ParseResult where
  pathVars : List (String × JSValue)
  queryParams : List (String × JSValue)

/-- Errors parseUrl can surface: a codec decode error propagated verbatim, or
the UrlParserError raised on a template mismatch. -/
inductive RouteError where
  | codec (e : CodecError)
  | urlParserErr (msg : String)
deriving DecidableEq, Repr

/-- The URL object parseUrl builds: absolute URIs pass through, others get the
localhost base. -/
def routeURL (uri : String) : JSURL :=
  jsNewURL (if jsStartsWith uri "http" then uri else "http://localhost" ++ uri)

/-- The template match check of parseUrl: chunk counts agree and every
template chunk either equals the positional pathname chunk or is a variable
slot. -/
def templateMatches (fullPath pathname : String) : Bool :=
  let pathnameChunks := jsSplit pathname "/"
  let templateChunks := jsSplit fullPath "/"
  (pathnameChunks.length == templateChunks.length) &&
    templateChunks.enum.all (fun ic =>
      pathnameChunks[ic.1]? == some ic.2 || jsStartsWith ic.2 ":")

/-- The pathVars part of a successful parseUrl: for every accumulated path
variable, the positional pathname chunk of its template slot is decoded with
its codec (no query context), errors propagating.  A missing slot hands the
undefined text to the codec, mirroring the non-null assertion in the source. -/
def parsePathVars (fullPath : String) (allPathVars : List (String × Codec))
    (pathname : String) : Except RouteError (List (String × JSValue)) :=
  let pathnameChunks := jsSplit pathname "/"
  let templateChunks := jsSplit fullPath "/"
  allPathVars.mapM (fun kc =>
    let pathVar := ((templateChunks.findIdx? (fun ch => ch == ":" ++ kc.1)).bind
      (fun i => pathnameChunks[i]?)).getD "undefined"
    match kc.2.decode pathVar none with
    | .ok v => pure (kc.1, v)
    | .error e => .error (.codec e))

/-- One step of the queryParams fold of parseUrl: the first value of the key
is read from the search params; a missing key or an empty first value is
skipped, otherwise the codec decodes it with the query context. -/
def parseQueryStep (url : JSURL) (params : List (String × JSValue))
    (kc : String × Codec) : Except RouteError (List (String × JSValue)) :=
  match searchParamsGet url.search kc.1 with
  | some first =>
    if first = "" then pure params
    else
      match kc.2.decode first (some ⟨kc.1, url.search⟩) with
      | .ok v => pure (params ++ [(kc.1, v)])
      | .error e => .error (.codec e)
  | none => pure params

/-- The queryParams part of a successful parseUrl: a fold over the node own
query parameter codecs. -/
def parseQueryParams (queryParams : List (String × Codec)) (url : JSURL) :
    Except RouteError (List (String × JSValue)) :=
  queryParams.foldlM (parseQueryStep url) []

/-- Model of the parseUrl closure attached by injectParentData. -/
def parseUrlImpl (fullPath : String) (allPathVars queryParams : List (String × Codec))
    (uri : String) : Except RouteError ParseResult :=
  let url := routeURL uri
  if templateMatches fullPath url.pathname then do
    let pvs ← parsePathVars fullPath allPathVars url.pathname
    let qps ← parseQueryParams queryParams url
    pure ⟨pvs, qps⟩
  else
    .error (.urlParserErr ("Unable to parse \"" ++ uri ++
      "\". The url does not match the template \"" ++ fullPath ++ "\""))

/-- Model of the makeUrl closure attached by injectParentData: the query
string is folded over the supplied keys declared among the node own query
params (undefined values skipped; an encoded value containing its own
key-equals fragment is inserted URI-encoded as a whole, otherwise the value is
assigned component-encoded); then every supplied path variable is substituted
in the full template, and the query string is appended when any query key was
supplied. -/
def makeUrlImpl (fullPath : String) (allPathVars queryParams : List (String × Codec))
    (params : Option (List (String × JSValue))) : Except CodecError String := do
  let paramList := params.getD []
  let paramKeys := paramList.map Prod.fst
  let queryKeys := paramKeys.filter (fun key => (alookup key queryParams).isSome)
  let search ← queryKeys.foldlM (fun search key =>
    match alookup key queryParams, alookup key paramList with
    | some _, some JSValue.undef => pure search
    | some codec, some paramValue => do
      let encodedValue ← codec.encode paramValue (some key)
      let joinChar := if search = "?" then "" else "&"
      pure (if containsSub encodedValue (key ++ "=") then
          search ++ joinChar ++ encodeURI encodedValue
        else search ++ joinChar ++ key ++ "=" ++ encodeURIComponent encodedValue)
    | _, _ => pure search) "?"
  let base ← (paramKeys.filter (fun key => (alookup key allPathVars).isSome)).foldlM
    (fun url key =>
      match alookup key allPathVars with
      | some codec =>
        (codec.encode ((alookup key paramList).getD .undef) none).map
          (fun encoded => jsReplaceAll url (":" ++ key) encoded)
      | none => pure url) fullPath
  pure (base ++ (if queryKeys.length > 0 then search else ""))

/-- The makeUrl method of a resolved route. -/
def Resolved.makeUrl (r : Resolved) (params : Option (List (String × JSValue))) :
    Except CodecError String :=
  makeUrlImpl r.fullPath r.pathVars r.queryParams params

/-- The parseUrl method of a resolved route. -/
def Resolved.parseUrl (r : Resolved) (uri : String) : Except RouteError ParseResult :=
  parseUrlImpl r.fullPath r.pathVars r.queryParams uri

/-- The template method of a resolved route. -/
def Resolved.template (r : Resolved) : String := r.fullPath

/-! ## Claim C2: the end-to-end route scenario -/

def authorRoute : RouteNode :=
  .mk "/author/:authorId" [("authorId", Codecs.Number)] [("tab", Codecs.String)] .nil

def libraryRoute : RouteNode :=
  .mk "/library/:libId" [("libId", Codecs.Number)]
    [("limit", Codecs.Boolean), ("page", Codecs.Number)]
    (.cons "author" authorRoute .nil)

def demoRoutes : RouteList := .cons "library" libraryRoute .nil

/-- Claim C2: after build, the nested author route of the demo tree makes the
expected URL for {libId: 1, authorId: 2, tab: "tab one"}, parses the expected
path variables and query params back out of a matching URL, and raises a
UrlParserError naming the attempted URL and the expected template on a
mismatching one. -/
theorem c2_end_to_end :
    ∃ lib author,
      ResolvedList.lookup "library" (Routeways.build demoRoutes) = some lib ∧
      ResolvedList.lookup "author" lib.children = some author ∧
      Resolved.makeUrl author (some [("libId", .num (.dec 1 0)), ("authorId", .num (.dec 2 0)),
        ("tab", .str "tab one")]) = .ok "/library/1/author/2?tab=tab%20one" ∧
      Resolved.parseUrl author "/library/1/author/4?tab=info" =
        .ok ⟨[("libId", .num (.dec 1 0)), ("authorId", .num (.dec 4 0))],
             [("tab", .str "info")]⟩ ∧
      Resolved.parseUrl author "/foo" =
        .error (.urlParserErr
          "Unable to parse \"/foo\". The url does not match the template \"/library/:libId/author/:authorId\"") := by
  refine ⟨_, _, rfl, rfl, ?_, ?_, ?_⟩ <;> rfl

/-! ## Claim C3: path variable accumulation and query param non-inheritance -/

/-- Navigation through an unresolved route tree by child names. -/
def RouteNode.navigate : RouteNode → List String → Option RouteNode
  | r, [] => some r
  | r, n :: p => (r.subRoutes.lookup n).bind (fun c => RouteNode.navigate c p)

/-- Navigation through a resolved route tree by child names. -/
def Resolved.navigate : Resolved → List String → Option Resolved
  | r, [] => some r
  | r, n :: p => (r.children.lookup n).bind (fun c => Resolved.navigate c p)

/-- The merge of all ancestor path variables with the own ones along a
navigation path, written after the words of the specification: every ancestor
contributes its pathVars in order, each spread under the next. -/
def specAccumPathVars : RouteNode → List String → List (String × Codec) →
    Option (List (String × Codec))
  | r, [], acc => some (spreadMerge acc r.pathVars)
  | r, n :: p, acc =>
    (r.subRoutes.lookup n).bind (fun c => specAccumPathVars c p (spreadMerge acc r.pathVars))

theorem lookup_injectChildren (n : String) :
    ∀ (subs : RouteList) (fp : String) (apv : List (String × Codec)),
    ResolvedList.lookup n (injectChildren subs fp apv) =
      (RouteList.lookup n subs).map (fun c => injectParentData c fp apv)
  | .nil, _, _ => rfl
  | .cons name node rest, fp, apv => by
    by_cases h : name = n <;>
      simp [injectChildren, RouteList.lookup, ResolvedList.lookup, h,
        lookup_injectChildren n rest fp apv]

theorem inject_navigate (p : List String) : ∀ (r : RouteNode) (basePath : String)
    (pv : List (String × Codec)) (res : Resolved),
    Resolved.navigate (injectParentData r basePath pv) p = some res →
    ∃ node, RouteNode.navigate r p = some node ∧
      specAccumPathVars r p pv = some res.pathVars ∧
      res.queryParams = node.queryParams := by
  induction p with
  | nil =>
    intro r basePath pv res h
    cases r with
    | mk seg pvs qps subs =>
      simp only [injectParentData, Resolved.navigate] at h
      injection h with h
      subst h
      exact ⟨.mk seg pvs qps subs, rfl, rfl, rfl⟩
  | cons n rest ih =>
    intro r basePath pv res h
    cases r with
    | mk seg pvs qps subs =>
      simp only [injectParentData, Resolved.navigate, Resolved.children] at h
      rw [lookup_injectChildren] at h
      cases hc : RouteList.lookup n subs with
      | none =>
        rw [hc] at h
        simp at h
      | some child =>
        rw [hc] at h
        simp only [Option.map_some', Option.some_bind] at h
        obtain ⟨node, hnav, hacc, hqp⟩ := ih child (basePath ++ seg) (spreadMerge pv pvs) res h
        refine ⟨node, ?_, ?_, hqp⟩
        · simp [RouteNode.navigate, RouteNode.subRoutes, hc, hnav]
        · simp [specAccumPathVars, RouteNode.subRoutes, RouteNode.pathVars, hc, hacc]

/-- Claim C3: in every built route tree, every reachable node exposes as its
config pathVars exactly the merge of all ancestor path variables with its own,
while its config queryParams are only its own declared ones; accordingly its
makeUrl and parseUrl closures consult only the node own query parameters
besides the accumulated path variables and the full template. -/
theorem c3_accumulation (root : RouteNode) (p : List String) (res : Resolved)
    (h : Resolved.navigate (injectParentData root "" []) p = some res) :
    ∃ node, RouteNode.navigate root p = some node ∧
      specAccumPathVars root p [] = some res.pathVars ∧
      res.queryParams = node.queryParams ∧
      (∀ params, Resolved.makeUrl res params =
        makeUrlImpl res.fullPath res.pathVars node.queryParams params) ∧
      (∀ uri, Resolved.parseUrl res uri =
        parseUrlImpl res.fullPath res.pathVars node.queryParams uri) := by
  obtain ⟨node, h1, h2, h3⟩ := inject_navigate p root "" [] res h
  refine ⟨node, h1, h2, h3, ?_, ?_⟩
  · intro params
    unfold Resolved.makeUrl
    rw [h3]
  · intro uri
    unfold Resolved.parseUrl
    rw [h3]

def deepCRoute : RouteNode :=
  .mk "/c/:cId" [("cId", Codecs.Number)] [("q3", Codecs.String)] .nil

def deepBRoute : RouteNode :=
  .mk "/b/:bId" [("bId", Codecs.Number)] [("q2", Codecs.String)]
    (.cons "c" deepCRoute .nil)

def deepARoute : RouteNode :=
  .mk "/a/:aId" [("aId", Codecs.Number)] [("q1", Codecs.String)]
    (.cons "b" deepBRoute .nil)

/-- Witness for C3: the accumulation evaluated on a route nested three levels
deep. -/
theorem c3_witness :
    ∃ res, Resolved.navigate (injectParentData deepARoute "" []) ["b", "c"] = some res ∧
      ∃ node, RouteNode.navigate deepARoute ["b", "c"] = some node ∧
        specAccumPathVars deepARoute ["b", "c"] [] = some res.pathVars ∧
        res.queryParams = node.queryParams ∧
        (∀ params, Resolved.makeUrl res params =
          makeUrlImpl res.fullPath res.pathVars node.queryParams params) ∧
        (∀ uri, Resolved.parseUrl res uri =
          parseUrlImpl res.fullPath res.pathVars node.queryParams uri) :=
  ⟨_, rfl, c3_accumulation deepARoute ["b", "c"] _ rfl⟩

theorem except_ok_bind {e a b : Type} (x : a) (f : a → Except e b) :
    (Except.ok x : Except e a) >>= f = f x := rfl

theorem except_error_bind {e a b : Type} (err : e) (f : a → Except e b) :
    (Except.error err : Except e a) >>= f = .error err := rfl

def replaceCodec (qps : List (String × Codec)) (key : String) (c : Codec) :
    List (String × Codec) :=
  qps.map (fun kc => if kc.1 = key then (kc.1, c) else kc)

theorem parseQueryFold_replaceCodec (url : JSURL) (key : String) (c : Codec)
    (hkey : searchParamsGet url.search key = some "") :
    ∀ (qps : List (String × Codec)) (acc : List (String × JSValue)),
    List.foldlM (parseQueryStep url) acc (replaceCodec qps key c) =
      List.foldlM (parseQueryStep url) acc qps
  | [], _ => rfl
  | kc :: rest, acc => by
    by_cases h : kc.1 = key
    · have hstep1 : parseQueryStep url acc (kc.1, c) = pure acc := by
        simp [parseQueryStep, h, hkey]
      have hstep2 : parseQueryStep url acc kc = pure acc := by
        have : searchParamsGet url.search kc.1 = some "" := by rw [h, hkey]
        simp [parseQueryStep, this]
      simp only [replaceCodec, List.map_cons, if_pos h, List.foldlM_cons, hstep1, hstep2]
      simp only [pure_bind]
      exact parseQueryFold_replaceCodec url key c hkey rest acc
    · simp only [replaceCodec, List.map_cons, if_neg h, List.foldlM_cons]
      cases hstep : parseQueryStep url acc kc with
      | error e2 => rfl
      | ok acc2 =>
        simp only [except_ok_bind]
        exact parseQueryFold_replaceCodec url key c hkey rest acc2

theorem alookup_append_single_ne {α : Type} (key k1 : String) (v : α)
    (acc : List (String × α)) (hacc : alookup key acc = none) (hne : k1 ≠ key) :
    alookup key (acc ++ [(k1, v)]) = none := by
  rw [alookup_append_right key acc _ hacc]
  simp [alookup, hne]

theorem parseQueryFold_lookup_none (url : JSURL) (key : String)
    (hkey : searchParamsGet url.search key = some "") :
    ∀ (qps : List (String × Codec)) (acc res : List (String × JSValue)),
    List.foldlM (parseQueryStep url) acc qps = .ok res →
    alookup key acc = none → alookup key res = none
  | [], acc, res, h, hacc => by
    simp only [List.foldlM_nil] at h
    injection h with h
    subst h
    exact hacc
  | kc :: rest, acc, res, h, hacc => by
    rw [List.foldlM_cons] at h
    by_cases hk : kc.1 = key
    · have hstep : parseQueryStep url acc kc = pure acc := by
        have hx : searchParamsGet url.search kc.1 = some "" := by rw [hk, hkey]
        simp [parseQueryStep, hx]
      rw [hstep] at h
      simp only [pure_bind] at h
      exact parseQueryFold_lookup_none url key hkey rest acc res h hacc
    · cases hget : searchParamsGet url.search kc.1 with
      | none =>
        have hstep : parseQueryStep url acc kc = pure acc := by
          simp [parseQueryStep, hget]
        rw [hstep] at h
        simp only [pure_bind] at h
        exact parseQueryFold_lookup_none url key hkey rest acc res h hacc
      | some first =>
        by_cases hfe : first = ""
        · have hstep : parseQueryStep url acc kc = pure acc := by
            simp [parseQueryStep, hget, hfe]
          rw [hstep] at h
          simp only [pure_bind] at h
          exact parseQueryFold_lookup_none url key hkey rest acc res h hacc
        · cases hdec : kc.2.decode first (some ⟨kc.1, url.search⟩) with
          | error e2 =>
            have hstep : parseQueryStep url acc kc = .error (.codec e2) := by
              simp [parseQueryStep, hget, hfe, hdec]
            rw [hstep] at h
            rw [except_error_bind] at h
            exact absurd h (fun hc => Except.noConfusion hc)
          | ok v =>
            have hstep : parseQueryStep url acc kc = pure (acc ++ [(kc.1, v)]) := by
              simp [parseQueryStep, hget, hfe, hdec]
            rw [hstep] at h
            simp only [pure_bind] at h
            exact parseQueryFold_lookup_none url key hkey rest _ res h
              (alookup_append_single_ne key kc.1 v acc hacc hk)

theorem parseQueryFold_url_congr (u1 u2 : JSURL) (key : String)
    (hkey : searchParamsGet u1.search key = some "")
    (habs : searchParamsGet u2.search key = none)
    (hoth : ∀ j, j ≠ key → searchParamsGet u2.search j = searchParamsGet u1.search j) :
    ∀ (qps : List (String × Codec)),
    (∀ kc ∈ qps, kc.1 ≠ key → ∀ s,
      kc.2.decode s (some ⟨kc.1, u2.search⟩) = kc.2.decode s (some ⟨kc.1, u1.search⟩)) →
    ∀ acc, List.foldlM (parseQueryStep u2) acc qps =
      List.foldlM (parseQueryStep u1) acc qps
  | [], _, _ => rfl
  | kc :: rest, hdec, acc => by
    have hrest := fun kc2 hm => hdec kc2 (List.mem_cons_of_mem _ hm)
    rw [List.foldlM_cons, List.foldlM_cons]
    by_cases hk : kc.1 = key
    · have hs1 : parseQueryStep u1 acc kc = pure acc := by
        have hx : searchParamsGet u1.search kc.1 = some "" := by rw [hk, hkey]
        simp [parseQueryStep, hx]
      have hs2 : parseQueryStep u2 acc kc = pure acc := by
        have hx : searchParamsGet u2.search kc.1 = none := by rw [hk, habs]
        simp [parseQueryStep, hx]
      rw [hs1, hs2]
      simp only [pure_bind]
      exact parseQueryFold_url_congr u1 u2 key hkey habs hoth rest hrest acc
    · have hget : searchParamsGet u2.search kc.1 = searchParamsGet u1.search kc.1 :=
        hoth kc.1 hk
      have hdk := hdec kc (List.mem_cons_self _ _) hk
      have hs : parseQueryStep u2 acc kc = parseQueryStep u1 acc kc := by
        unfold parseQueryStep
        rw [hget]
        cases searchParamsGet u1.search kc.1 with
        | none => rfl
        | some first =>
          by_cases hfe : first = ""
          · simp [hfe]
          · simp only [if_neg hfe]
            rw [hdk first]
      rw [hs]
      cases hstep : parseQueryStep u1 acc kc with
      | error e2 => rfl
      | ok acc2 =>
        simp only [except_ok_bind]
        exact parseQueryFold_url_congr u1 u2 key hkey habs hoth rest hrest acc2

/-- Claim C10: when the query string of a parsed URL carries a declared query
parameter key with an empty value, parseUrl omits that key from the returned
queryParams exactly as if the key were absent: the key codec is never
consulted (replacing it changes nothing) and, whenever parsing succeeds, the
result has no entry for the key and equals the result for a URL without the
key (same pathname, same other keys, codecs insensitive to the raw search
difference). -/
theorem c10_empty_query_value (fullPath : String) (pvs qps : List (String × Codec))
    (key uri uri2 : String)
    (hkey : searchParamsGet (routeURL uri).search key = some "")
    (hpath : (routeURL uri2).pathname = (routeURL uri).pathname)
    (habs : searchParamsGet (routeURL uri2).search key = none)
    (hoth : ∀ j, j ≠ key → searchParamsGet (routeURL uri2).search j =
      searchParamsGet (routeURL uri).search j)
    (hdec : ∀ kc ∈ qps, kc.1 ≠ key → ∀ s,
      kc.2.decode s (some ⟨kc.1, (routeURL uri2).search⟩) =
        kc.2.decode s (some ⟨kc.1, (routeURL uri).search⟩)) :
    (∀ c, parseUrlImpl fullPath pvs (replaceCodec qps key c) uri =
      parseUrlImpl fullPath pvs qps uri) ∧
    (∀ res, parseUrlImpl fullPath pvs qps uri = .ok res →
      alookup key res.queryParams = none ∧
      parseUrlImpl fullPath pvs qps uri2 = .ok res) := by
  constructor
  · intro c
    unfold parseUrlImpl
    by_cases hm : templateMatches fullPath (routeURL uri).pathname = true
    · rw [if_pos hm, if_pos hm]
      simp only [parseQueryParams, parseQueryFold_replaceCodec (routeURL uri) key c hkey]
    · rw [if_neg hm, if_neg hm]
  · intro res hok
    unfold parseUrlImpl at hok ⊢
    by_cases hm : templateMatches fullPath (routeURL uri).pathname = true
    · rw [if_pos hm] at hok
      simp only [hpath]
      rw [if_pos hm]
      cases hpv : parsePathVars fullPath pvs (routeURL uri).pathname with
      | error e =>
        rw [hpv, except_error_bind] at hok
        exact absurd hok (fun hc => Except.noConfusion hc)
      | ok pAns =>
        rw [hpv, except_ok_bind] at hok
        cases hqp : parseQueryParams qps (routeURL uri) with
        | error e =>
          rw [hqp, except_error_bind] at hok
          exact absurd hok (fun hc => Except.noConfusion hc)
        | ok qAns =>
          rw [hqp, except_ok_bind] at hok
          injection hok with hok
          subst hok
          have hq2 : parseQueryParams qps (routeURL uri2) =
              parseQueryParams qps (routeURL uri) := by
            unfold parseQueryParams
            exact parseQueryFold_url_congr (routeURL uri) (routeURL uri2) key hkey habs
              hoth qps hdec []
          constructor
          · exact parseQueryFold_lookup_none (routeURL uri) key hkey qps [] qAns hqp rfl
          · rw [except_ok_bind, hq2, hqp, except_ok_bind]
            rfl
    · rw [if_neg hm] at hok
      exact absurd hok (fun hc => Except.noConfusion hc)

/-- Witness for C10: a route with one array-codec query parameter parsed from
a URL carrying that key with an empty value omits the key, behaving exactly as
for the URL without the key. -/
theorem c10_witness :
    alookup "tab" (ParseResult.mk [] []).queryParams = none ∧
    parseUrlImpl "/x" [] [("tab", Codecs.array Codecs.String "," .json)] "/x" =
      .ok (ParseResult.mk [] []) :=
  (c10_empty_query_value "/x" [] [("tab", Codecs.array Codecs.String "," .json)] "tab"
    "/x?tab=" "/x" rfl rfl rfl
    (by
      intro j hj
      have hb : (("tab" : String) == j) = false := beq_eq_false_iff_ne.mpr (Ne.symm hj)
      show (none : Option String) =
        (List.find? (fun kv => kv.1 == j) [(("tab" : String), ("" : String))]).map
          (fun kv => kv.2)
      simp [List.find?, hb])
    (by
      intro kc hkc hne
      rw [List.mem_singleton] at hkc
      subst hkc
      exact absurd rfl hne)).2 (ParseResult.mk [] []) rfl
